import Mathlib

set_option maxRecDepth 100000

/-!
Verification model of MiniGit (src/minigit.py): a content-addressable object
store, a JSON staging index, and commit snapshots, all hashed with SHA-1.

The Python state lives on the filesystem: the objects directory is modelled as
an insertion-ordered association list from hex digest to stored text, the index
file as an association list from path to hex digest.  Writes to the objects
directory are additionally logged (key, content) so that "the write was
skipped" versus "the write happened" is observable in the model.
-/

namespace MiniGitModel

/-- Association-list lookup, modelling `dict[k]` access / file lookup by name. -/
def lookup {α : Type} (m : List (String × α)) (k : String) : Option α :=
  match m with
  | [] => none
  | (k2, v) :: rest => if k2 = k then some v else lookup rest k

/-- Association-list update, modelling Python `d[k] = v` on an insertion-ordered
dict (update in place if the key exists, else append), and likewise writing the
file named `k` in a directory. -/
def setKey {α : Type} (m : List (String × α)) (k : String) (v : α) : List (String × α) :=
  match m with
  | [] => [(k, v)]
  | (k2, v2) :: rest => if k2 = k then (k2, v) :: rest else (k2, v2) :: setKey rest k v

/-- The keys of an association list (the set of object names / staged paths). -/
def keys {α : Type} (m : List (String × α)) : List String :=
  m.map Prod.fst

/-! ## UTF-8, modelling Python `str.encode()` -/

/-- UTF-8 encoding of a single code point, as a list of byte values. -/
def utf8EncodeChar (c : Char) : List Nat :=
  let n := c.toNat
  if n < 128 then [n]
  else if n < 2048 then [192 + n / 64, 128 + n % 64]
  else if n < 65536 then [224 + n / 4096, 128 + n / 64 % 64, 128 + n % 64]
  else [240 + n / 262144, 128 + n / 4096 % 64, 128 + n / 64 % 64, 128 + n % 64]

/-- UTF-8 encoding of a string, modelling Python `s.encode()`. -/
def utf8Encode (s : String) : List Nat :=
  s.data.flatMap utf8EncodeChar

/-! ## SHA-1, modelling `hashlib.sha1(...).hexdigest()` -/

/-- Truncation to a 32-bit word. -/
def mod32 (n : Nat) : Nat :=
  n % 4294967296

/-- Left rotation of a 32-bit word by `k` bits. -/
def rotl (w k : Nat) : Nat :=
  mod32 (w <<< k) ||| (w >>> (32 - k))

/-- The SHA-1 round constant for round `i`. -/
def sha1K (i : Nat) : Nat :=
  if i < 20 then 1518500249
  else if i < 40 then 1859775393
  else if i < 60 then 2400959708
  else 3395469782

/-- The SHA-1 round function for round `i`. -/
def sha1F (i b c d : Nat) : Nat :=
  if i < 20 then (b &&& c) ||| ((b ^^^ 4294967295) &&& d)
  else if i < 40 then b ^^^ c ^^^ d
  else if i < 60 then (b &&& c) ||| (b &&& d) ||| (c &&& d)
  else b ^^^ c ^^^ d

/-- Extends the 16 words of a block to the 80-word message schedule. -/
def sha1Schedule (ws : Array Nat) : Array Nat :=
  (List.range 64).foldl
    (fun a j =>
      let i := j + 16
      a.push (rotl ((a.getD (i - 3) 0) ^^^ (a.getD (i - 8) 0) ^^^
        (a.getD (i - 14) 0) ^^^ (a.getD (i - 16) 0)) 1))
    ws

/-- Compression of one 512-bit block (given as 16 words) into the running
digest state. -/
def sha1Block (h : Nat × Nat × Nat × Nat × Nat) (block : List Nat) :
    Nat × Nat × Nat × Nat × Nat :=
  let sched := sha1Schedule block.toArray
  let step := fun (st : Nat × Nat × Nat × Nat × Nat) (i : Nat) =>
    let (a, b, c, d, e) := st
    let t := mod32 (rotl a 5 + sha1F i b c d + e + sha1K i + sched.getD i 0)
    (t, a, rotl b 30, c, d)
  let (a, b, c, d, e) := (List.range 80).foldl step h
  let (h0, h1, h2, h3, h4) := h
  (mod32 (h0 + a), mod32 (h1 + b), mod32 (h2 + c), mod32 (h3 + d), mod32 (h4 + e))

/-- Big-endian grouping of bytes into 32-bit words. -/
def bytesToWords : List Nat → List Nat
  | b0 :: b1 :: b2 :: b3 :: rest =>
      (b0 * 16777216 + b1 * 65536 + b2 * 256 + b3) :: bytesToWords rest
  | _ => []

/-- Folds the word stream, 16 words (one block) at a time, through
`sha1Block`. -/
def sha1Blocks (h : Nat × Nat × Nat × Nat × Nat) : List Nat → Nat × Nat × Nat × Nat × Nat
  | w0 :: w1 :: w2 :: w3 :: w4 :: w5 :: w6 :: w7 ::
    w8 :: w9 :: w10 :: w11 :: w12 :: w13 :: w14 :: w15 :: rest =>
      sha1Blocks (sha1Block h [w0, w1, w2, w3, w4, w5, w6, w7,
        w8, w9, w10, w11, w12, w13, w14, w15]) rest
  | _ => h

/-- SHA-1 padding: append 0x80, zeros to 56 mod 64, then the 64-bit big-endian
bit length. -/
def sha1Pad (msg : List Nat) : List Nat :=
  let len := msg.length
  let bitLen := (8 * len) % 18446744073709551616
  msg ++ 128 :: List.replicate ((119 - len % 64) % 64) 0 ++
    [bitLen >>> 56 % 256, bitLen >>> 48 % 256, bitLen >>> 40 % 256, bitLen >>> 32 % 256,
     bitLen >>> 24 % 256, bitLen >>> 16 % 256, bitLen >>> 8 % 256, bitLen % 256]

/-- The five-word SHA-1 digest of a byte sequence. -/
def sha1Digest (msg : List Nat) : Nat × Nat × Nat × Nat × Nat :=
  sha1Blocks (1732584193, 4023233417, 2562383102, 271733878, 3285377520)
    (bytesToWords (sha1Pad msg))

/-- Lowercase hexadecimal digit for `n < 16`. -/
def hexChar (n : Nat) : Char :=
  if n < 10 then Char.ofNat (48 + n) else Char.ofNat (87 + n)

/-- The eight lowercase hex characters of a 32-bit word, most significant
first. -/
def wordHex (w : Nat) : List Char :=
  [hexChar (w >>> 28 % 16), hexChar (w >>> 24 % 16), hexChar (w >>> 20 % 16),
   hexChar (w >>> 16 % 16), hexChar (w >>> 12 % 16), hexChar (w >>> 8 % 16),
   hexChar (w >>> 4 % 16), hexChar (w % 16)]

/-- The 40 lowercase hex characters of the SHA-1 digest of a byte sequence. -/
def sha1hexChars (msg : List Nat) : List Char :=
  let d := sha1Digest msg
  wordHex d.1 ++ wordHex d.2.1 ++ wordHex d.2.2.1 ++ wordHex d.2.2.2.1 ++ wordHex d.2.2.2.2

/-- SHA-1 hex digest of a byte sequence: 40 lowercase hex characters. -/
def sha1hexBytes (msg : List Nat) : String :=
  String.mk (sha1hexChars msg)

/-- `MiniGit._hash_object(data)`: SHA-1 hex digest of the UTF-8 encoding of a
string, modelling `hashlib.sha1(data.encode()).hexdigest()`
(src/minigit.py lines 22 to 27). -/
def hash_object (data : String) : String :=
  sha1hexBytes (utf8Encode data)

/-! ## JSON serialization, modelling `json.dumps(..., indent=4)` -/

/-- Four lowercase hex characters of a 16-bit value, for `\uXXXX` escapes. -/
def hexFour (n : Nat) : List Char :=
  [hexChar (n >>> 12 % 16), hexChar (n >>> 8 % 16), hexChar (n >>> 4 % 16), hexChar (n % 16)]

/-- JSON escaping of one character, as Python `json.dumps` does with the
default `ensure_ascii=True`: the two-character escapes for quote, backslash,
backspace, tab, newline, form feed and carriage return; `\uXXXX` for the other
control characters and for every code point at or above `0x7f` (a surrogate
pair for code points above `0xffff`); all other ASCII kept verbatim. -/
def jsonEscapeChar (c : Char) : List Char :=
  let n := c.toNat
  if n = 34 then ['\\', '"']
  else if n = 92 then ['\\', '\\']
  else if n = 8 then ['\\', 'b']
  else if n = 9 then ['\\', 't']
  else if n = 10 then ['\\', 'n']
  else if n = 12 then ['\\', 'f']
  else if n = 13 then ['\\', 'r']
  else if n < 32 then '\\' :: 'u' :: hexFour n
  else if n < 127 then [c]
  else if n < 65536 then '\\' :: 'u' :: hexFour n
  else
    ('\\' :: 'u' :: hexFour (55296 + (n - 65536) / 1024)) ++
      ('\\' :: 'u' :: hexFour (56320 + (n - 65536) % 1024))

/-- A JSON string literal for `s`, quotes included. -/
def jsonString (s : String) : String :=
  "\"" ++ String.mk (s.data.flatMap jsonEscapeChar) ++ "\""

/-- Joins strings with a separator (Python `sep.join(items)`). -/
def joinSep (sep : String) : List String → String
  | [] => ""
  | [x] => x
  | x :: xs => x ++ sep ++ joinSep sep xs

/-- `json.dumps({"message": message, "files": files}, indent=4)` for a
string-to-string `files` dict in insertion order, exactly as the Python
serializer prints it (src/minigit.py line 99). -/
def jsonDumpsCommit (message : String) (files : List (String × String)) : String :=
  let filesBody :=
    match files with
    | [] => "\x7b\x7d"
    | _ =>
        "\x7b\n" ++
          joinSep ",\n"
            (files.map fun kv => "        " ++ jsonString kv.1 ++ ": " ++ jsonString kv.2) ++
          "\n    \x7d"
  "\x7b\n    \"message\": " ++ jsonString message ++ ",\n    \"files\": " ++ filesBody ++ "\n\x7d"

/-! ## Repository state and operations (class `MiniGit`)

The on-disk state of a repository: `store` maps each object filename (a hex
digest) in the objects directory to the text stored in it; `index` is the
path-to-digest mapping held in the index file.  `log` records every write
performed on the objects directory, in order, as (filename, content) pairs, so
that performed-versus-skipped writes are distinguishable even when they leave
`store` unchanged. -/

structure Repo where
  store : List (String × String)
  index : List (String × String)
  log : List (String × String)
  deriving Repr, DecidableEq

/-- The state right after `MiniGit()` is constructed on a fresh root: the
directories exist and the index file holds an empty mapping
(src/minigit.py lines 15 to 18). -/
def repoNew : Repo :=
  { store := [], index := [], log := [] }

/-- Outcome of `MiniGit.add`.  The code reports the missing-file failure with a
message and returns without mutating anything; `fileNotFound` models that
reported error value. -/
inductive AddResult where
  | ok
  | fileNotFound
  deriving Repr, DecidableEq

/-- `MiniGit.add(file_path)` (src/minigit.py lines 58 to 82), run against a
filesystem `fs` mapping each existing path to the text content read from it.
If the path is missing, the error is reported and nothing changes.  Otherwise
the content is hashed, written unconditionally to the objects directory under
its digest, and the index entry for the path is set to the digest. -/
def add (fs : List (String × String)) (r : Repo) (path : String) : AddResult × Repo :=
  match lookup fs path with
  | none => (AddResult.fileNotFound, r)
  | some content =>
      let file_hash := hash_object content
      (AddResult.ok,
        { store := setKey r.store file_hash content,
          index := setKey r.index path file_hash,
          log := r.log ++ [(file_hash, content)] })

/-- `MiniGit.commit(message)` (src/minigit.py lines 84 to 108).  With an empty
index nothing is stored, no hash is computed, and the no-changes condition is
reported (`none`).  Otherwise the commit record is serialized, hashed, stored
under its digest, and the digest — printed by the code as the commit hash — is
the result. -/
def commit (r : Repo) (message : String) : Option String × Repo :=
  if r.index = [] then (none, r)
  else
    let commit_data := jsonDumpsCommit message r.index
    let commit_hash := hash_object commit_data
    (some commit_hash,
      { store := setKey r.store commit_hash commit_data,
        index := r.index,
        log := r.log ++ [(commit_hash, commit_data)] })

/-- One repository operation, for reasoning about reachable states.  `add`
carries the filesystem visible at the time of the call.  `reinit` is
`MiniGit.init()` on an already-initialized root, which only reports and
changes nothing (src/minigit.py lines 50 to 51). -/
inductive Op where
  | add (fs : List (String × String)) (path : String)
  | commit (message : String)
  | reinit

/-- Runs one operation. -/
def runOp (r : Repo) : Op → Repo
  | Op.add fs path => (add fs r path).2
  | Op.commit m => (commit r m).2
  | Op.reinit => r

/-- Runs a sequence of operations. -/
def run (r : Repo) : List Op → Repo
  | [] => r
  | op :: ops => run (runOp r op) ops

/-! ## ObjectStore `put` and `get` over bytes -/

/-- Failure of an ObjectStore read. -/
inductive GetErr where
  | objectNotFound
  deriving Repr, DecidableEq

/-- Modelled from the spec: the source has no standalone ObjectStore API — its
object writes are inlined in `add` and `commit` and no read path exists — so
`put` follows the spec words: compute the digest of the bytes, skip the write
when an object of that name already exists, store the bytes under the digest
otherwise, and return the digest always. -/
def ObjectStore.put (store : List (String × List Nat)) (b : List Nat) :
    String × List (String × List Nat) :=
  let id := sha1hexBytes b
  if (lookup store id).isSome then (id, store) else (id, setKey store id b)

/-- Modelled from the spec: `get(id)` returns the previously stored bytes and
fails with ObjectNotFound when no object named `id` was ever stored. -/
def ObjectStore.get (store : List (String × List Nat)) (id : String) :
    Except GetErr (List Nat) :=
  match lookup store id with
  | some b => Except.ok b
  | none => Except.error GetErr.objectNotFound

/-! ## Byte-level `add`, modelling the text-mode read `open(file_path, 'r')` -/

/-- Strict UTF-8 decoding of a byte sequence into characters: rejects stray or
missing continuation bytes, overlong encodings, surrogate code points and code
points beyond `0x10ffff`, as Python strict `utf-8` decoding does. -/
def utf8DecodeChars : List Nat → Option (List Char)
  | [] => some []
  | b :: rest =>
    if b < 128 then (utf8DecodeChars rest).map (fun cs => Char.ofNat b :: cs)
    else if b < 192 then none
    else if b < 224 then
      match rest with
      | b1 :: rest2 =>
          if 128 ≤ b1 ∧ b1 < 192 then
            let n := (b - 192) * 64 + (b1 - 128)
            if n < 128 then none
            else (utf8DecodeChars rest2).map (fun cs => Char.ofNat n :: cs)
          else none
      | _ => none
    else if b < 240 then
      match rest with
      | b1 :: b2 :: rest2 =>
          if (128 ≤ b1 ∧ b1 < 192) ∧ (128 ≤ b2 ∧ b2 < 192) then
            let n := (b - 224) * 4096 + (b1 - 128) * 64 + (b2 - 128)
            if n < 2048 then none
            else if 55296 ≤ n ∧ n < 57344 then none
            else (utf8DecodeChars rest2).map (fun cs => Char.ofNat n :: cs)
          else none
      | _ => none
    else if b < 245 then
      match rest with
      | b1 :: b2 :: b3 :: rest2 =>
          if (128 ≤ b1 ∧ b1 < 192) ∧ (128 ≤ b2 ∧ b2 < 192) ∧ (128 ≤ b3 ∧ b3 < 192) then
            let n := (b - 240) * 262144 + (b1 - 128) * 4096 + (b2 - 128) * 64 + (b3 - 128)
            if n < 65536 then none
            else if 1114111 < n then none
            else (utf8DecodeChars rest2).map (fun cs => Char.ofNat n :: cs)
          else none
      | _ => none
    else none

/-- Strict UTF-8 decoding to a string: the decoding step of a text-mode read,
before newline translation. -/
def utf8Decode (bs : List Nat) : Option String :=
  (utf8DecodeChars bs).map String.mk

/-- Universal-newline translation, performed by Python text mode (default
`newline=None`) on the decoded characters: each `\r\n` pair and each lone `\r`
becomes `\n`. -/
def univNewlines : List Char → List Char
  | [] => []
  | '\r' :: '\n' :: rest => '\n' :: univNewlines rest
  | '\r' :: rest => '\n' :: univNewlines rest
  | c :: rest => c :: univNewlines rest

/-- What text-mode `open(file_path, 'r')` / `f.read()` yields on the raw file
bytes: strict UTF-8 decoding followed by universal-newline translation;
`none` when the bytes do not decode (`f.read()` raises UnicodeDecodeError). -/
def readText (bs : List Nat) : Option String :=
  (utf8DecodeChars bs).map (fun cs => String.mk (univNewlines cs))

/-- Outcome of `MiniGit.add` seen at the byte level: the missing-file case is a
reported error value, while a file whose bytes do not decode makes the
text-mode read raise UnicodeDecodeError, which `add` does not handle. -/
inductive AddBResult where
  | ok
  | fileNotFound
  | unicodeDecodeError
  deriving Repr, DecidableEq

/-- `MiniGit.add(file_path)` against a filesystem `fsB` of raw file bytes: the
text-mode `open(file_path, 'r')` / `f.read()` decodes the bytes and translates
universal newlines before anything is hashed or stored
(src/minigit.py lines 66 to 75). -/
def addB (fsB : List (String × List Nat)) (r : Repo) (path : String) : AddBResult × Repo :=
  match lookup fsB path with
  | none => (AddBResult.fileNotFound, r)
  | some bs =>
      match readText bs with
      | none => (AddBResult.unicodeDecodeError, r)
      | some content =>
          let file_hash := hash_object content
          (AddBResult.ok,
            { store := setKey r.store file_hash content,
              index := setKey r.index path file_hash,
              log := r.log ++ [(file_hash, content)] })

/-- Two write-log entries cohere when equal keys carry equal contents. -/
def coherent (x y : String × String) : Prop :=
  x.1 = y.1 → x.2 = y.2

/-! ## Lemmas about association-list update -/

theorem lookup_setKey_self {α : Type} (m : List (String × α)) (k : String) (v : α) :
    lookup (setKey m k v) k = some v := by
  induction m with
  | nil => simp [setKey, lookup]
  | cons hd tl ih =>
    obtain ⟨k2, v2⟩ := hd
    by_cases h : k2 = k
    · simp [setKey, h, lookup]
    · simp [setKey, h, lookup, ih]

theorem lookup_setKey_ne {α : Type} (m : List (String × α)) {k k2 : String} (v : α)
    (h : k ≠ k2) : lookup (setKey m k v) k2 = lookup m k2 := by
  induction m with
  | nil => simp [setKey, lookup, h]
  | cons hd tl ih =>
    obtain ⟨k3, v3⟩ := hd
    by_cases h3 : k3 = k
    · subst h3
      simp [setKey, lookup, h]
    · simp only [setKey, if_neg h3]
      by_cases h4 : k3 = k2
      · simp [lookup, h4]
      · simp [lookup, h4, ih]

theorem lookup_setKey_isSome {α : Type} (m : List (String × α)) (k k2 : String) (v : α)
    (h : (lookup m k2).isSome = true) : (lookup (setKey m k v) k2).isSome = true := by
  by_cases he : k = k2
  · subst he
    simp [lookup_setKey_self]
  · rwa [lookup_setKey_ne m v he]

theorem lookup_setKey_cases {α : Type} (m : List (String × α)) (k k2 : String) (v v2 : α)
    (h : lookup (setKey m k v) k2 = some v2) :
    (k2 = k ∧ v2 = v) ∨ lookup m k2 = some v2 := by
  by_cases he : k = k2
  · subst he
    rw [lookup_setKey_self] at h
    exact Or.inl ⟨rfl, (Option.some_inj.mp h).symm⟩
  · rw [lookup_setKey_ne m v he] at h
    exact Or.inr h

theorem setKey_setKey_self {α : Type} (m : List (String × α)) (k : String) (v v2 : α) :
    setKey (setKey m k v) k v2 = setKey m k v2 := by
  induction m with
  | nil => simp [setKey]
  | cons hd tl ih =>
    obtain ⟨k3, v3⟩ := hd
    by_cases h : k3 = k
    · simp [setKey, h]
    · simp [setKey, h, ih]

theorem keys_setKey_mem {α : Type} (m : List (String × α)) (k : String) (v : α)
    (h : (lookup m k).isSome = true) : keys (setKey m k v) = keys m := by
  induction m with
  | nil => simp [lookup] at h
  | cons hd tl ih =>
    obtain ⟨k2, v2⟩ := hd
    by_cases he : k2 = k
    · simp [setKey, he, keys]
    · simp only [lookup, if_neg he] at h
      have hk := ih h
      simp only [keys] at hk ⊢
      simp [setKey, he, hk]

/-! ## Lemmas about operation sequences -/

theorem run_append (l1 l2 : List Op) (r : Repo) :
    run r (l1 ++ l2) = run (run r l1) l2 := by
  induction l1 generalizing r with
  | nil => simp [run]
  | cons op ops ih => simp [run, ih]

theorem runOp_store_isSome (r : Repo) (op : Op) (h : String)
    (hs : (lookup r.store h).isSome = true) :
    (lookup (runOp r op).store h).isSome = true := by
  cases op with
  | add fs path =>
    cases hfs : lookup fs path with
    | none => simpa [runOp, add, hfs] using hs
    | some content =>
      simp only [runOp, add, hfs]
      exact lookup_setKey_isSome _ _ _ _ hs
  | commit m =>
    by_cases hi : r.index = []
    · simpa [runOp, commit, hi] using hs
    · simp only [runOp, commit, if_neg hi]
      exact lookup_setKey_isSome _ _ _ _ hs
  | reinit => simpa [runOp] using hs

theorem run_store_isSome (ops : List Op) (r : Repo) (h : String)
    (hs : (lookup r.store h).isSome = true) :
    (lookup (run r ops).store h).isSome = true := by
  induction ops generalizing r with
  | nil => simpa [run] using hs
  | cons op rest ih =>
    simp only [run]
    exact ih _ (runOp_store_isSome r op h hs)

theorem mem_setKey {α : Type} (m : List (String × α)) (k : String) (v : α) (e : String × α)
    (h : e ∈ setKey m k v) : e = (k, v) ∨ e ∈ m := by
  induction m with
  | nil =>
    simp only [setKey, List.mem_singleton] at h
    exact Or.inl h
  | cons hd tl ih =>
    obtain ⟨k2, v2⟩ := hd
    by_cases he : k2 = k
    · subst he
      simp only [setKey, if_true, eq_self_iff_true, ite_true, List.mem_cons] at h
      rcases h with h | h
      · exact Or.inl h
      · exact Or.inr (List.mem_cons_of_mem _ h)
    · simp only [setKey, he, ite_false, if_false, List.mem_cons] at h
      rcases h with h | h
      · exact Or.inr (by rw [h]; exact List.mem_cons_self _ _)
      · rcases ih h with h2 | h2
        · exact Or.inl h2
        · exact Or.inr (List.mem_cons_of_mem _ h2)

/-- Every digest an index entry carries names an object present in the store. -/
def IndexInv (r : Repo) : Prop :=
  ∀ e, e ∈ r.index → (lookup r.store e.2).isSome = true

theorem runOp_indexInv (r : Repo) (op : Op) (hr : IndexInv r) : IndexInv (runOp r op) := by
  cases op with
  | add fs path =>
    cases hfs : lookup fs path with
    | none =>
      simpa [runOp, add, hfs] using hr
    | some content =>
      intro e he
      simp only [runOp, add, hfs] at he ⊢
      rcases mem_setKey _ _ _ _ he with rfl | hold
      · simp [lookup_setKey_self]
      · exact lookup_setKey_isSome _ _ _ _ (hr e hold)
  | commit m =>
    by_cases hi : r.index = []
    · simpa [runOp, commit, hi] using hr
    · intro e he
      simp only [runOp, commit, if_neg hi] at he ⊢
      exact lookup_setKey_isSome _ _ _ _ (hr e he)
  | reinit => simpa [runOp] using hr

theorem run_indexInv (ops : List Op) (r : Repo) (hr : IndexInv r) : IndexInv (run r ops) := by
  induction ops generalizing r with
  | nil => simpa [run] using hr
  | cons op rest ih =>
    simp only [run]
    exact ih _ (runOp_indexInv r op hr)

/-- Every object present in the store was put there by a logged write. -/
def LogInv (r : Repo) : Prop :=
  ∀ h c, lookup r.store h = some c → (h, c) ∈ r.log

theorem runOp_logInv (r : Repo) (op : Op) (hr : LogInv r) : LogInv (runOp r op) := by
  cases op with
  | add fs path =>
    cases hfs : lookup fs path with
    | none => simpa [runOp, add, hfs] using hr
    | some content =>
      intro h c hc
      simp only [runOp, add, hfs] at hc ⊢
      rcases lookup_setKey_cases _ _ _ _ _ hc with ⟨rfl, rfl⟩ | hold
      · simp
      · exact List.mem_append_left _ (hr _ _ hold)
  | commit m =>
    by_cases hi : r.index = []
    · simpa [runOp, commit, hi] using hr
    · intro h c hc
      simp only [runOp, commit, if_neg hi] at hc ⊢
      rcases lookup_setKey_cases _ _ _ _ _ hc with ⟨rfl, rfl⟩ | hold
      · simp
      · exact List.mem_append_left _ (hr _ _ hold)
  | reinit => simpa [runOp] using hr

theorem run_logInv (ops : List Op) (r : Repo) (hr : LogInv r) : LogInv (run r ops) := by
  induction ops generalizing r with
  | nil => simpa [run] using hr
  | cons op rest ih =>
    simp only [run]
    exact ih _ (runOp_logInv r op hr)

theorem runOp_log_prefix (r : Repo) (op : Op) :
    ∃ l, (runOp r op).log = r.log ++ l := by
  cases op with
  | add fs path =>
    cases hfs : lookup fs path with
    | none => exact ⟨[], by simp [runOp, add, hfs]⟩
    | some content =>
      exact ⟨[(hash_object content, content)], by simp [runOp, add, hfs]⟩
  | commit m =>
    by_cases hi : r.index = []
    · exact ⟨[], by simp [runOp, commit, hi]⟩
    · exact ⟨[(hash_object (jsonDumpsCommit m r.index), jsonDumpsCommit m r.index)],
        by simp [runOp, commit, if_neg hi]⟩
  | reinit => exact ⟨[], by simp [runOp]⟩

theorem run_log_prefix (ops : List Op) (r : Repo) :
    ∃ l, (run r ops).log = r.log ++ l := by
  induction ops generalizing r with
  | nil => exact ⟨[], by simp [run]⟩
  | cons op rest ih =>
    obtain ⟨l1, h1⟩ := runOp_log_prefix r op
    obtain ⟨l2, h2⟩ := ih (runOp r op)
    exact ⟨l1 ++ l2, by simp [run, h2, h1]⟩

theorem coherent_symm : Symmetric coherent := by
  intro x y hxy h
  exact (hxy h.symm).symm

theorem coherent_refl (x : String × String) : coherent x x :=
  fun _ => rfl

theorem pairwise_coherent_glue {L : List (String × String)} (hp : List.Pairwise coherent L)
    {h c c2 : String} (h1 : (h, c) ∈ L) (h2 : (h, c2) ∈ L) : c = c2 :=
  hp.forall_of_forall coherent_symm (fun x _ => coherent_refl x) h1 h2 rfl

/-! ## Claim theorems -/

/-- Claim C1: with a non-empty index, `commit` serializes the commit record,
stores it under its SHA-1 digest, and yields that digest (printed by the code
as the commit hash) as the commit identifier; with an empty index it reports
the no-changes condition, stores nothing, computes no hash, and leaves the
state untouched. -/
theorem commit_result_spec (r : Repo) (m : String) :
    (r.index ≠ [] →
      commit r m =
        (some (hash_object (jsonDumpsCommit m r.index)),
         { store := setKey r.store (hash_object (jsonDumpsCommit m r.index))
             (jsonDumpsCommit m r.index),
           index := r.index,
           log := r.log ++
             [(hash_object (jsonDumpsCommit m r.index), jsonDumpsCommit m r.index)] })) ∧
    (r.index = [] → commit r m = (none, r)) := by
  constructor
  · intro hi
    simp [commit, if_neg hi]
  · intro hi
    simp [commit, hi]

/-- Witness for C1: one commit against a staged index yields the digest of the
serialized record and stores it; a commit against the empty index is a no-op
reporting no changes. -/
theorem commit_result_spec_witness :
    commit { store := [], index := [("a.txt", "h")], log := [] } "m" =
      (some (hash_object (jsonDumpsCommit "m" [("a.txt", "h")])),
       { store := setKey [] (hash_object (jsonDumpsCommit "m" [("a.txt", "h")]))
           (jsonDumpsCommit "m" [("a.txt", "h")]),
         index := [("a.txt", "h")],
         log := [] ++
           [(hash_object (jsonDumpsCommit "m" [("a.txt", "h")]),
             jsonDumpsCommit "m" [("a.txt", "h")])] }) ∧
    commit repoNew "m" = (none, repoNew) :=
  ⟨(commit_result_spec { store := [], index := [("a.txt", "h")], log := [] } "m").1
      (by decide),
   (commit_result_spec repoNew "m").2 rfl⟩

/-- Claim C2: `add` on a path absent from the filesystem reports the
missing-file error and returns the repository state unchanged: same object
store, same index. -/
theorem add_missing_file (fs : List (String × String)) (r : Repo) (p : String)
    (h : lookup fs p = none) : add fs r p = (AddResult.fileNotFound, r) := by
  simp [add, h]

/-- Witness for C2: adding a nonexistent path to a fresh repository reports the
error and changes nothing. -/
theorem add_missing_file_witness :
    add [] repoNew "does-not-exist.txt" = (AddResult.fileNotFound, repoNew) :=
  add_missing_file [] repoNew "does-not-exist.txt" rfl

/-- Claim C9: `commit` never touches the index: the staged mapping after a
commit is exactly the staged mapping before it, whatever the state and the
message. -/
theorem commit_preserves_index (r : Repo) (m : String) :
    (commit r m).2.index = r.index := by
  by_cases hi : r.index = []
  · simp [commit, hi]
  · simp [commit, if_neg hi]

/-- Claim C3: on the spec-modelled ObjectStore, `get` after `put` returns the
stored bytes exactly, and `get` of an identifier never stored fails with
ObjectNotFound.  The first part assumes the store holds no distinct content
already filed under the digest of `b` (content addressing: such an entry could
only be a SHA-1 collision). -/
theorem objectstore_roundtrip :
    (∀ (store : List (String × List Nat)) (b : List Nat),
        (∀ c, lookup store (sha1hexBytes b) = some c → c = b) →
        ObjectStore.get (ObjectStore.put store b).2 (ObjectStore.put store b).1 =
          Except.ok b) ∧
    (∀ (store : List (String × List Nat)) (id : String),
        lookup store id = none →
        ObjectStore.get store id = Except.error GetErr.objectNotFound) := by
  constructor
  · intro store b hb
    cases hs : lookup store (sha1hexBytes b) with
    | some c =>
      have hcb := hb c hs
      subst hcb
      simp [ObjectStore.put, hs, ObjectStore.get]
    | none =>
      simp [ObjectStore.put, hs, ObjectStore.get, lookup_setKey_self]
  · intro store id h
    simp [ObjectStore.get, h]

/-- Witness for C3: a put-then-get round trip on concrete bytes, and a failing
get on an empty store. -/
theorem objectstore_roundtrip_witness :
    ObjectStore.get (ObjectStore.put [] [104, 105]).2 (ObjectStore.put [] [104, 105]).1 =
      Except.ok [104, 105] ∧
    ObjectStore.get ([] : List (String × List Nat)) "deadbeef" =
      Except.error GetErr.objectNotFound :=
  ⟨objectstore_roundtrip.1 [] [104, 105] (fun c hc => by simp [lookup] at hc),
   objectstore_roundtrip.2 [] "deadbeef" rfl⟩

/-- Claim C5 as stated is false on the code: when an object with the content
digest is already present in the objects directory, storing the same content
again does not skip the write — `add` opens and rewrites the object file
unconditionally, which the write log records as a second write event. -/
theorem put_existing_skips_counterexample :
    lookup ((add [("a.txt", "hello")] repoNew "a.txt").2).store (hash_object "hello") =
      some "hello" ∧
    ((add [("a.txt", "hello")] (add [("a.txt", "hello")] repoNew "a.txt").2 "a.txt").2).log =
      ((add [("a.txt", "hello")] repoNew "a.txt").2).log ++ [(hash_object "hello", "hello")] ∧
    ((add [("a.txt", "hello")] (add [("a.txt", "hello")] repoNew "a.txt").2 "a.txt").2).log.length
      = 2 := by
  refine ⟨?_, ?_, ?_⟩ <;> simp [add, lookup, repoNew, lookup_setKey_self]

/-- Claim C5 amended: storing content whose ContentId is already present
rewrites the object file (a write event with the same digest and identical
bytes is performed rather than skipped), but the stored mapping, the object
count, and the index are left exactly as after the first store. -/
theorem put_existing_amended (fs : List (String × String)) (r : Repo) (p c : String)
    (h : lookup fs p = some c) :
    ((add fs (add fs r p).2 p).2).store = ((add fs r p).2).store ∧
    ((add fs (add fs r p).2 p).2).index = ((add fs r p).2).index ∧
    keys ((add fs (add fs r p).2 p).2).store = keys ((add fs r p).2).store ∧
    ((add fs r p).2).log = r.log ++ [(hash_object c, c)] ∧
    ((add fs (add fs r p).2 p).2).log = ((add fs r p).2).log ++ [(hash_object c, c)] := by
  simp [add, h, setKey_setKey_self]

/-- Witness for C5 amended: a concrete double add of the same file. -/
theorem put_existing_amended_witness :
    ((add [("a.txt", "hello")] (add [("a.txt", "hello")] repoNew "a.txt").2 "a.txt").2).store =
      ((add [("a.txt", "hello")] repoNew "a.txt").2).store ∧
    ((add [("a.txt", "hello")] (add [("a.txt", "hello")] repoNew "a.txt").2 "a.txt").2).index =
      ((add [("a.txt", "hello")] repoNew "a.txt").2).index ∧
    keys ((add [("a.txt", "hello")] (add [("a.txt", "hello")] repoNew "a.txt").2 "a.txt").2).store
      = keys ((add [("a.txt", "hello")] repoNew "a.txt").2).store ∧
    ((add [("a.txt", "hello")] repoNew "a.txt").2).log =
      repoNew.log ++ [(hash_object "hello", "hello")] ∧
    ((add [("a.txt", "hello")] (add [("a.txt", "hello")] repoNew "a.txt").2 "a.txt").2).log =
      ((add [("a.txt", "hello")] repoNew "a.txt").2).log ++ [(hash_object "hello", "hello")] :=
  put_existing_amended [("a.txt", "hello")] repoNew "a.txt" "hello" rfl

/-- Claim C4: after adding `a.txt` and `b.txt` to a fresh repository and
committing with message `msg`, the commit hash names a stored object whose
content is exactly the canonical serialization of the record with message
`msg` and files mapping `a.txt` and `b.txt` to the digests the two adds
produced. -/
theorem commit_snapshot (fs : List (String × String)) (cA cB : String)
    (hA : lookup fs "a.txt" = some cA) (hB : lookup fs "b.txt" = some cB) :
    (commit ((add fs (add fs repoNew "a.txt").2 "b.txt").2) "msg").1 =
      some (hash_object (jsonDumpsCommit "msg"
        [("a.txt", hash_object cA), ("b.txt", hash_object cB)])) ∧
    lookup ((commit ((add fs (add fs repoNew "a.txt").2 "b.txt").2) "msg").2).store
      (hash_object (jsonDumpsCommit "msg"
        [("a.txt", hash_object cA), ("b.txt", hash_object cB)])) =
      some (jsonDumpsCommit "msg"
        [("a.txt", hash_object cA), ("b.txt", hash_object cB)]) := by
  have hidx : ((add fs (add fs repoNew "a.txt").2 "b.txt").2).index =
      [("a.txt", hash_object cA), ("b.txt", hash_object cB)] := by
    simp [add, hA, hB, repoNew, setKey]
  constructor
  · simp [commit, hidx]
  · simp [commit, hidx, lookup_setKey_self]

/-- Witness for C4: the snapshot scenario with concrete file contents. -/
theorem commit_snapshot_witness :
    (commit ((add [("a.txt", "alpha"), ("b.txt", "beta")]
          (add [("a.txt", "alpha"), ("b.txt", "beta")] repoNew "a.txt").2 "b.txt").2) "msg").1 =
      some (hash_object (jsonDumpsCommit "msg"
        [("a.txt", hash_object "alpha"), ("b.txt", hash_object "beta")])) ∧
    lookup ((commit ((add [("a.txt", "alpha"), ("b.txt", "beta")]
          (add [("a.txt", "alpha"), ("b.txt", "beta")] repoNew "a.txt").2 "b.txt").2)
        "msg").2).store
      (hash_object (jsonDumpsCommit "msg"
        [("a.txt", hash_object "alpha"), ("b.txt", hash_object "beta")])) =
      some (jsonDumpsCommit "msg"
        [("a.txt", hash_object "alpha"), ("b.txt", hash_object "beta")]) :=
  commit_snapshot [("a.txt", "alpha"), ("b.txt", "beta")] "alpha" "beta" rfl rfl

/-- Claim C8: adding path `p` first with content hashing to digest A, then with
content hashing to a different digest B, leaves the index mapping `p` to B;
provided A was not staged elsewhere, no occurrence of A remains anywhere in the
index, while the object A still sits in the object store with its original
content. -/
theorem index_overwrite (fs1 fs2 : List (String × String)) (r : Repo) (p cA cB : String)
    (h1 : lookup fs1 p = some cA) (h2 : lookup fs2 p = some cB)
    (hne : hash_object cA ≠ hash_object cB)
    (hA : ∀ q h, lookup r.index q = some h → h ≠ hash_object cA) :
    lookup ((add fs2 (add fs1 r p).2 p).2).index p = some (hash_object cB) ∧
    (∀ q h, lookup ((add fs2 (add fs1 r p).2 p).2).index q = some h →
      h ≠ hash_object cA) ∧
    lookup ((add fs2 (add fs1 r p).2 p).2).store (hash_object cA) = some cA := by
  simp only [add, h1, h2]
  refine ⟨?_, ?_, ?_⟩
  · rw [setKey_setKey_self, lookup_setKey_self]
  · intro q h hq
    rw [setKey_setKey_self] at hq
    rcases lookup_setKey_cases _ _ _ _ _ hq with ⟨rfl, rfl⟩ | hold
    · exact Ne.symm hne
    · exact hA q h hold
  · rw [lookup_setKey_ne _ _ (Ne.symm hne), lookup_setKey_self]

/-- Witness for C8: the same path staged with two different contents whose
digests differ, starting from a fresh repository. -/
theorem index_overwrite_witness :
    lookup ((add [("p.txt", "y")] (add [("p.txt", "x")] repoNew "p.txt").2 "p.txt").2).index
        "p.txt" = some (hash_object "y") ∧
    (∀ q h,
      lookup ((add [("p.txt", "y")] (add [("p.txt", "x")] repoNew "p.txt").2 "p.txt").2).index q
          = some h → h ≠ hash_object "x") ∧
    lookup ((add [("p.txt", "y")] (add [("p.txt", "x")] repoNew "p.txt").2 "p.txt").2).store
        (hash_object "x") = some "x" :=
  index_overwrite [("p.txt", "x")] [("p.txt", "y")] repoNew "p.txt" "x" "y" rfl rfl
    (by decide) (fun q h hq => by simp [repoNew, lookup] at hq)

/-- The sixteen lowercase hexadecimal digits. -/
def hexDigits : List Char :=
  "0123456789abcdef".data

theorem hexChar_mem_hexDigits (n : Nat) (h : n < 16) : hexChar n ∈ hexDigits := by
  interval_cases n <;> decide

theorem wordHex_mem (w : Nat) (c : Char) (h : c ∈ wordHex w) : c ∈ hexDigits := by
  simp only [wordHex, List.mem_cons, List.not_mem_nil, or_false] at h
  rcases h with rfl | rfl | rfl | rfl | rfl | rfl | rfl | rfl <;>
    exact hexChar_mem_hexDigits _ (Nat.mod_lt _ (by norm_num))

theorem sha1hexChars_mem (msg : List Nat) (c : Char) (hc : c ∈ sha1hexChars msg) :
    c ∈ hexDigits := by
  simp only [sha1hexChars, List.mem_append] at hc
  rcases hc with ((((hc | hc) | hc) | hc) | hc) <;> exact wordHex_mem _ _ hc

theorem sha1hexChars_length (msg : List Nat) : (sha1hexChars msg).length = 40 := by
  simp [sha1hexChars, wordHex]

/-- Claim C7: the hasher is a pure total function: it is defined on every
input, byte-equal inputs give identical digests, the digest is always 40
characters long and made of lowercase hexadecimal digits only, and the empty
input maps to the well-defined SHA-1 digest of the empty byte sequence. -/
theorem hash_object_spec (s : String) :
    hash_object s = sha1hexBytes (utf8Encode s) ∧
    (∀ b b2 : List Nat, b = b2 → sha1hexBytes b = sha1hexBytes b2) ∧
    (hash_object s).length = 40 ∧
    (∀ c ∈ (hash_object s).data, c ∈ hexDigits) ∧
    hash_object "" = "da39a3ee5e6b4b0d3255bfef95601890afd80709" := by
  refine ⟨rfl, fun b b2 hb => congrArg sha1hexBytes hb, ?_, ?_, by decide⟩
  · show (String.mk (sha1hexChars (utf8Encode s))).length = 40
    simp [String.length, sha1hexChars_length]
  · intro c hc
    exact sha1hexChars_mem _ c hc

/-- Witness for C7: the digest of the empty string is made of hex digits; in
particular its first character is one. -/
theorem hash_object_spec_witness :
    'd' ∈ hexDigits :=
  (hash_object_spec "").2.2.2.1 'd' (by decide)

/-- Claim C10 as stated is false on the code: for file bytes containing a
carriage return, the text-mode read performs universal-newline translation
after decoding, so the stored blob and the hashed input are the encoding of
the translated string, not of the decoded string.  Concretely, the bytes of
`a\r\nb` decode to `a\r\nb`, yet `add` stores the blob `a\nb` under the digest
of its encoding, and no object sits under the digest of the decoded string. -/
theorem add_text_mode_counterexample :
    utf8Decode [97, 13, 10, 98] = some "a\r\nb" ∧
    (addB [("f.txt", [97, 13, 10, 98])] repoNew "f.txt").2.store =
      [(sha1hexBytes (utf8Encode "a\nb"), "a\nb")] ∧
    sha1hexBytes (utf8Encode "a\nb") ≠ sha1hexBytes (utf8Encode "a\r\nb") ∧
    lookup ((addB [("f.txt", [97, 13, 10, 98])] repoNew "f.txt").2).store
      (sha1hexBytes (utf8Encode "a\r\nb")) = none := by
  have hr : readText [97, 13, 10, 98] = some "a\nb" := by decide
  have hs : (addB [("f.txt", [97, 13, 10, 98])] repoNew "f.txt").2.store =
      [(sha1hexBytes (utf8Encode "a\nb"), "a\nb")] := by
    simp [addB, lookup, hr, repoNew, setKey, hash_object]
  have hne : sha1hexBytes (utf8Encode "a\nb") ≠ sha1hexBytes (utf8Encode "a\r\nb") := by
    decide
  refine ⟨by decide, hs, hne, ?_⟩
  rw [hs]
  simp [lookup, hne]

/-- Claim C10 amended: `add` operates on the file content read in text mode,
not raw bytes: the bytes are decoded as text and universal newlines are
translated (each `\r\n` and lone `\r` becomes `\n`); the hashed input is the
UTF-8 encoding of this decoded, translated string and the stored blob is that
string as written back in text mode; when the bytes do not decode, the read
raises a decoding error that `add` does not handle — a distinct outcome from
the handled missing-file error value — and nothing is mutated, so `add` is
only defined for files whose bytes decode successfully. -/
theorem add_text_mode (fsB : List (String × List Nat)) (r : Repo) (p : String) (bs : List Nat)
    (hf : lookup fsB p = some bs) :
    (∀ s, utf8Decode bs = some s →
      readText bs = some (String.mk (univNewlines s.data))) ∧
    (∀ s, readText bs = some s →
      addB fsB r p =
        (AddBResult.ok,
          { store := setKey r.store (sha1hexBytes (utf8Encode s)) s,
            index := setKey r.index p (sha1hexBytes (utf8Encode s)),
            log := r.log ++ [(sha1hexBytes (utf8Encode s), s)] })) ∧
    (readText bs = none → addB fsB r p = (AddBResult.unicodeDecodeError, r)) ∧
    (readText bs = none ↔ utf8Decode bs = none) := by
  refine ⟨?_, ?_, ?_, ?_⟩
  · intro s hs
    cases hd : utf8DecodeChars bs with
    | none => simp [utf8Decode, hd] at hs
    | some cs =>
      simp only [utf8Decode, hd, Option.map_some] at hs
      rw [← Option.some_inj.mp hs]
      simp [readText, hd]
  · intro s hs
    simp [addB, hf, hs, hash_object]
  · intro hn
    simp [addB, hf, hn]
  · cases hd : utf8DecodeChars bs with
    | none => simp [readText, utf8Decode, hd]
    | some cs => simp [readText, utf8Decode, hd]

/-- Witness for C10 amended: a file with a carriage return reads as its
newline-translated text; a decodable file is hashed and stored through the
read string; an undecodable byte makes `add` end in the unhandled decoding
error, leaving the fresh repository untouched. -/
theorem add_text_mode_witness :
    readText [97, 13] = some (String.mk (univNewlines ("a\r").data)) ∧
    addB [("a.txt", [104, 105])] repoNew "a.txt" =
      (AddBResult.ok,
        { store := setKey repoNew.store (sha1hexBytes (utf8Encode "hi")) "hi",
          index := setKey repoNew.index "a.txt" (sha1hexBytes (utf8Encode "hi")),
          log := repoNew.log ++ [(sha1hexBytes (utf8Encode "hi"), "hi")] }) ∧
    addB [("blob.bin", [255])] repoNew "blob.bin" =
      (AddBResult.unicodeDecodeError, repoNew) :=
  ⟨(add_text_mode [("cr.txt", [97, 13])] repoNew "cr.txt" [97, 13] rfl).1 "a\r"
      (by decide),
   (add_text_mode [("a.txt", [104, 105])] repoNew "a.txt" [104, 105] rfl).2.1 "hi"
      (by decide),
   (add_text_mode [("blob.bin", [255])] repoNew "blob.bin" [255] rfl).2.2.1 (by decide)⟩

/-- Claim C6: in every state reachable from a fresh repository by sequences of
operations, every digest held by an index entry names an object present in the
store; objects, once present, stay present under every further operation
sequence (no deletion); every digest inside a commit record stored at any
point — its files are the index snapshot at commit time — names an object
still present after the commit and any further operations; and the content
stored under a digest is never changed by later operations, provided the
writes performed never filed distinct contents under one digest (which only a
SHA-1 collision could do). -/
theorem reachable_invariants (ops1 ops2 : List Op) :
    (∀ p h, (p, h) ∈ (run repoNew ops1).index →
        (lookup (run repoNew ops1).store h).isSome = true) ∧
    (∀ h, (lookup (run repoNew ops1).store h).isSome = true →
        (lookup (run (run repoNew ops1) ops2).store h).isSome = true) ∧
    (∀ m h, h ∈ ((run repoNew ops1).index).map Prod.snd →
        (lookup (run repoNew (ops1 ++ Op.commit m :: ops2)).store h).isSome = true) ∧
    (List.Pairwise coherent (run (run repoNew ops1) ops2).log →
        ∀ h c, lookup (run repoNew ops1).store h = some c →
          lookup (run (run repoNew ops1) ops2).store h = some c) := by
  have hIdx : IndexInv (run repoNew ops1) :=
    run_indexInv ops1 repoNew (fun e he => by simp [repoNew] at he)
  have hLog1 : LogInv (run repoNew ops1) :=
    run_logInv ops1 repoNew (fun h c hc => by simp [repoNew, lookup] at hc)
  have hLog2 : LogInv (run (run repoNew ops1) ops2) :=
    run_logInv ops2 _ hLog1
  refine ⟨?_, ?_, ?_, ?_⟩
  · intro p h hm
    exact hIdx (p, h) hm
  · intro h hs
    exact run_store_isSome ops2 _ h hs
  · intro m h hm
    rw [run_append]
    obtain ⟨e, he, rfl⟩ := List.mem_map.mp hm
    exact run_store_isSome (Op.commit m :: ops2) _ e.2 (hIdx e he)
  · intro hp h c hc
    have hmem1 : (h, c) ∈ (run repoNew ops1).log := hLog1 h c hc
    obtain ⟨l, hl⟩ := run_log_prefix ops2 (run repoNew ops1)
    have hmem1b : (h, c) ∈ (run (run repoNew ops1) ops2).log := by
      rw [hl]
      exact List.mem_append_left _ hmem1
    have hsome : (lookup (run (run repoNew ops1) ops2).store h).isSome = true :=
      run_store_isSome ops2 _ h (by simp [hc])
    obtain ⟨c2, hc2⟩ := Option.isSome_iff_exists.mp hsome
    have hglue : c = c2 := pairwise_coherent_glue hp hmem1b (hLog2 h c2 hc2)
    rw [hc2, hglue]

/-- Witness for C6: a concrete run consisting of one `add`, extended once by a
commit and once by nothing, with the coherence premise discharged on the
resulting one-entry write log. -/
theorem reachable_invariants_witness :
    (lookup (run repoNew [Op.add [("a.txt", "hi")] "a.txt"]).store
        (hash_object "hi")).isSome = true ∧
    (lookup (run (run repoNew [Op.add [("a.txt", "hi")] "a.txt"]) []).store
        (hash_object "hi")).isSome = true ∧
    (lookup (run repoNew ([Op.add [("a.txt", "hi")] "a.txt"] ++ Op.commit "m" :: [])).store
        (hash_object "hi")).isSome = true ∧
    lookup (run (run repoNew [Op.add [("a.txt", "hi")] "a.txt"]) []).store
        (hash_object "hi") = some "hi" :=
  ⟨(reachable_invariants [Op.add [("a.txt", "hi")] "a.txt"] []).1 "a.txt" (hash_object "hi")
      (by simp [run, runOp, add, lookup, setKey, repoNew]),
   (reachable_invariants [Op.add [("a.txt", "hi")] "a.txt"] []).2.1 (hash_object "hi")
      (by simp [run, runOp, add, lookup, repoNew, lookup_setKey_self]),
   (reachable_invariants [Op.add [("a.txt", "hi")] "a.txt"] []).2.2.1 "m" (hash_object "hi")
      (by simp [run, runOp, add, lookup, setKey, repoNew]),
   (reachable_invariants [Op.add [("a.txt", "hi")] "a.txt"] []).2.2.2
      (by simp [run, runOp, add, lookup, repoNew, List.pairwise_cons])
      (hash_object "hi") "hi"
      (by simp [run, runOp, add, lookup, repoNew, lookup_setKey_self])⟩

end MiniGitModel
